import Mathlib

/-!
Verification of the Backend of the research_agents repository.

The Python source is shallowly embedded: strings are `List Char` where character
level operations matter, Python exceptions are `Except String`, Python dicts that
are used in insertion order are association lists kept in insertion order.
Each definition is annotated with the source location it embeds.
-/

set_option linter.unusedVariables false

namespace ResearchAgents

/-! ## Data model (Backend/models.py) -/

/-- models.py: `class Node(BaseModel)` with fields `id`, `type`. -/
structure Node where
  id : String
  type : String
deriving DecidableEq, Repr

/-- models.py: `class Relationship(BaseModel)` with fields `source`, `target`, `type`. -/
structure Relationship where
  source : String
  target : String
  type : String
deriving DecidableEq, Repr

/-- models.py: `class KnowledgeGraphResponse(BaseModel)`. -/
structure KnowledgeGraphResponse where
  nodes : List Node
  relationships : List Relationship
deriving DecidableEq, Repr

/-- models.py: `class Citation(BaseModel)`; the `metadata` dict is reduced to the
raw rows payload that `task_graph` stores under the `data` key. -/
structure Citation where
  id : String
  type : String
  content : String
  source_file : Option String := none
deriving DecidableEq, Repr

/-! ## Python range and slicing (for knowledge_graph._chunk_text) -/

/-- Iteration core of Python `range` with a positive step, driven by fuel so
that it is structurally recursive; `stop - start` units of fuel suffice for a
step of at least 1, since fuel 0 and an exhausted range both yield `[]`. -/
def pyRangeUpAux (step : Nat) : Nat → Nat → Nat → List Nat
  | 0, _, _ => []
  | fuel + 1, start, stop =>
    if start < stop then start :: pyRangeUpAux step fuel (start + step) stop else []

/-- Python `range(start, stop, step)` for a positive step: the ascending indices
`start, start+step, ...` strictly below `stop`. -/
def pyRangeUp (start stop step : Nat) : List Nat :=
  if 0 < step then pyRangeUpAux step (stop + 1) start stop else []

/-- Iteration core of Python `range` with a negative step of magnitude `d`. -/
def pyRangeDownAux (d : Nat) : Nat → Nat → Nat → List Nat
  | 0, _, _ => []
  | fuel + 1, start, stop =>
    if stop < start then start :: pyRangeDownAux d fuel (start - d) stop else []

/-- Python `range(start, stop, step)` for a negative step of magnitude `d`:
descending indices while the current value stays above `stop`. -/
def pyRangeDown (start stop d : Nat) : List Nat :=
  if 0 < d then pyRangeDownAux d (start + 1) start stop else []

/-- Python `range(start, stop, step)` over machine integers restricted to
natural bounds as used by `_chunk_text`; a zero step raises `ValueError`. -/
def pyRange (start stop : Nat) (step : Int) : Except String (List Nat) :=
  if step = 0 then .error "range() arg 3 must not be zero"
  else if 0 < step then .ok (pyRangeUp start stop step.toNat)
  else .ok (pyRangeDown start stop (-step).toNat)

/-- Python slice `text[i : i + n]` on a character list (clamping semantics). -/
def pySlice (text : List Char) (i n : Nat) : List Char :=
  (text.drop i).take n

/-- knowledge_graph.py lines 90-94, `_chunk_text`:
if `len(text) <= chunk_size` return `[text]`, else
`[text[i:i+chunk_size] for i in range(0, len(text), chunk_size - overlap)]`.
The subtraction `chunk_size - overlap` is an integer subtraction, so an overlap
equal to the chunk size makes `range` raise and a larger overlap gives a
negative step (an empty range from 0). -/
def _chunk_text (text : List Char) (chunk_size overlap : Nat) : Except String (List (List Char)) :=
  if text.length ≤ chunk_size then .ok [text]
  else (pyRange 0 text.length ((chunk_size : Int) - (overlap : Int))).map
    (fun idxs => idxs.map (fun i => pySlice text i chunk_size))

/-! ## Graph merging (knowledge_graph._merge_graphs, lines 96-112) -/

/-- One assignment `merged_nodes[node.id] = node` guarded by
`if node.id not in merged_nodes`: the dict keeps first-come nodes in insertion
order, modelled as an append-only list with unique ids. -/
def addNode (ns : List Node) (n : Node) : List Node :=
  if ns.any (fun m => m.id == n.id) then ns else ns ++ [n]

/-- Intermediate state of `_merge_graphs`: the ordered node values, the
`edge_set` of (source, target, type) triples and the ordered `merged_rels`. -/
structure MergeState where
  nodes : List Node
  edges : List (String × String × String)
  rels : List Relationship
deriving DecidableEq, Repr

/-- The identifying `edge_tuple = (rel.source, rel.target, rel.type)`. -/
def tripleOf (r : Relationship) : String × String × String :=
  (r.source, r.target, r.type)

/-- One step of the `for rel in graph.relationships` loop: append the
relationship and its triple only when the triple is not yet in `edge_set`. -/
def addRel (p : List (String × String × String) × List Relationship) (r : Relationship) :
    List (String × String × String) × List Relationship :=
  if p.1.any (fun e2 => e2 == tripleOf r) then p else (p.1 ++ [tripleOf r], p.2 ++ [r])

/-- The body of the `for graph in graphs` loop in `_merge_graphs`. -/
def mergeGraphStep (st : MergeState) (g : KnowledgeGraphResponse) : MergeState :=
  let ns := g.nodes.foldl addNode st.nodes
  let p := g.relationships.foldl addRel (st.edges, st.rels)
  ⟨ns, p.1, p.2⟩

/-- knowledge_graph.py lines 96-112, `_merge_graphs`. -/
def _merge_graphs (graphs : List KnowledgeGraphResponse) : KnowledgeGraphResponse :=
  let st := graphs.foldl mergeGraphStep ⟨[], [], []⟩
  ⟨st.nodes, st.rels⟩

/-- knowledge_graph.py line 126: the message of the `RuntimeError` raised when
no chunk produced a graph. -/
def noGraphMsg : String :=
  "Failed to generate a knowledge graph from any part of the document."

/-- knowledge_graph.py lines 120-128, the tail of `process_text_in_chunks`:
given the per-chunk outcomes gathered with `return_exceptions=True`, keep the
successful graphs; raise the fixed `RuntimeError` when none succeeded
(the underlying errors are only printed), else merge the successes. -/
def process_chunk_results (results : List (Except String KnowledgeGraphResponse)) :
    Except String KnowledgeGraphResponse :=
  let successful := results.filterMap (fun r => match r with | .ok g => some g | .error _ => none)
  if successful.isEmpty then .error noGraphMsg
  else .ok (_merge_graphs successful)

instance {ε α : Type} [DecidableEq ε] [DecidableEq α] : DecidableEq (Except ε α) := fun a b =>
  match a, b with
  | .ok x, .ok y => decidable_of_iff (x = y) (by simp)
  | .error x, .error y => decidable_of_iff (x = y) (by simp)
  | .ok _, .error _ => isFalse (by simp)
  | .error _, .ok _ => isFalse (by simp)

/-- Python substring test `needle in hay` on character lists. -/
def containsSub (needle : List Char) : List Char → Bool
  | [] => needle.isEmpty
  | c :: t => needle.isPrefixOf (c :: t) || containsSub needle t

/-! ## Lemmas about `_merge_graphs` -/

lemma addNode_mem_mono {ns : List Node} {m : Node} (h : m ∈ ns) (n : Node) :
    m ∈ addNode ns n := by
  unfold addNode
  split
  · exact h
  · exact List.mem_append_left _ h

lemma foldl_addNode_mem_mono (m : Node) :
    ∀ (l ns : List Node), m ∈ ns → m ∈ l.foldl addNode ns
  | [], _, h => h
  | a :: t, ns, h => foldl_addNode_mem_mono m t (addNode ns a) (addNode_mem_mono h a)

lemma foldl_addNode_key_mono (x : String) (l ns : List Node)
    (h : ∃ m ∈ ns, m.id = x) : ∃ m ∈ l.foldl addNode ns, m.id = x := by
  obtain ⟨m, hm, hx⟩ := h
  exact ⟨m, foldl_addNode_mem_mono m l ns hm, hx⟩

lemma addNode_key (ns : List Node) (n : Node) : ∃ m ∈ addNode ns n, m.id = n.id := by
  unfold addNode
  split
  next h =>
    obtain ⟨m, hm, hb⟩ := List.any_eq_true.mp h
    exact ⟨m, hm, by simpa using hb⟩
  next h =>
    exact ⟨n, List.mem_append_right _ (by simp), rfl⟩

lemma foldl_addNode_key (n : Node) :
    ∀ (l ns : List Node), n ∈ l → ∃ m ∈ l.foldl addNode ns, m.id = n.id
  | [], _, h => absurd h (List.not_mem_nil n)
  | a :: t, ns, h => by
    rcases List.mem_cons.mp h with h1 | h2
    · subst h1
      exact foldl_addNode_key_mono n.id t (addNode ns n) (addNode_key ns n)
    · exact foldl_addNode_key n t (addNode ns a) h2

lemma foldl_addNode_id :
    ∀ (l ns : List Node), (∀ n ∈ l, ∃ m ∈ ns, m.id = n.id) → l.foldl addNode ns = ns
  | [], _, _ => rfl
  | a :: t, ns, h => by
    have ha : addNode ns a = ns := by
      unfold addNode
      rw [if_pos]
      obtain ⟨m, hm, hx⟩ := h a (List.mem_cons_self a t)
      exact List.any_eq_true.mpr ⟨m, hm, by simp [hx]⟩
    calc (a :: t).foldl addNode ns = t.foldl addNode (addNode ns a) := rfl
    _ = t.foldl addNode ns := by rw [ha]
    _ = ns := foldl_addNode_id t ns (fun n hn => h n (List.mem_cons_of_mem a hn))

lemma addRel_edge_mono {p : List (String × String × String) × List Relationship}
    {e : String × String × String} (h : e ∈ p.1) (r : Relationship) :
    e ∈ (addRel p r).1 := by
  unfold addRel
  split
  · exact h
  · exact List.mem_append_left _ h

lemma foldl_addRel_edge_mono (e : String × String × String) :
    ∀ (l : List Relationship) (p : List (String × String × String) × List Relationship),
      e ∈ p.1 → e ∈ (l.foldl addRel p).1
  | [], _, h => h
  | a :: t, p, h => foldl_addRel_edge_mono e t (addRel p a) (addRel_edge_mono h a)

lemma addRel_triple (p : List (String × String × String) × List Relationship)
    (r : Relationship) : tripleOf r ∈ (addRel p r).1 := by
  unfold addRel
  split
  next h =>
    obtain ⟨e, he, hb⟩ := List.any_eq_true.mp h
    have : e = tripleOf r := by simpa using hb
    exact this ▸ he
  next h =>
    exact List.mem_append_right _ (by simp)

lemma foldl_addRel_triple (r : Relationship) :
    ∀ (l : List Relationship) (p : List (String × String × String) × List Relationship),
      r ∈ l → tripleOf r ∈ (l.foldl addRel p).1
  | [], _, h => absurd h (List.not_mem_nil r)
  | a :: t, p, h => by
    rcases List.mem_cons.mp h with h1 | h2
    · subst h1
      exact foldl_addRel_edge_mono (tripleOf r) t (addRel p r) (addRel_triple p r)
    · exact foldl_addRel_triple r t (addRel p a) h2

lemma foldl_addRel_id :
    ∀ (l : List Relationship) (p : List (String × String × String) × List Relationship),
      (∀ r ∈ l, tripleOf r ∈ p.1) → l.foldl addRel p = p
  | [], _, _ => rfl
  | a :: t, p, h => by
    have ha : addRel p a = p := by
      unfold addRel
      rw [if_pos]
      exact List.any_eq_true.mpr ⟨tripleOf a, h a (List.mem_cons_self a t), by simp⟩
    calc (a :: t).foldl addRel p = t.foldl addRel (addRel p a) := rfl
    _ = t.foldl addRel p := by rw [ha]
    _ = p := foldl_addRel_id t p (fun r hr => h r (List.mem_cons_of_mem a hr))

/-- `st` already contains every node id and every relationship triple of `g`. -/
def absorbed (st : MergeState) (g : KnowledgeGraphResponse) : Prop :=
  (∀ n ∈ g.nodes, ∃ m ∈ st.nodes, m.id = n.id) ∧
    (∀ r ∈ g.relationships, tripleOf r ∈ st.edges)

lemma absorbed_step (st : MergeState) (g : KnowledgeGraphResponse) :
    absorbed (mergeGraphStep st g) g :=
  ⟨fun n hn => foldl_addNode_key n g.nodes st.nodes hn,
   fun r hr => foldl_addRel_triple r g.relationships (st.edges, st.rels) hr⟩

lemma absorbed_mono {st : MergeState} {g : KnowledgeGraphResponse}
    (h : absorbed st g) (g2 : KnowledgeGraphResponse) :
    absorbed (mergeGraphStep st g2) g :=
  ⟨fun n hn => foldl_addNode_key_mono n.id g2.nodes st.nodes (h.1 n hn),
   fun r hr => foldl_addRel_edge_mono (tripleOf r) g2.relationships (st.edges, st.rels) (h.2 r hr)⟩

lemma absorbed_fix {st : MergeState} {g : KnowledgeGraphResponse}
    (h : absorbed st g) : mergeGraphStep st g = st := by
  unfold mergeGraphStep
  rw [foldl_addNode_id g.nodes st.nodes h.1, foldl_addRel_id g.relationships _ h.2]

lemma absorbed_foldl_mono {g : KnowledgeGraphResponse} :
    ∀ (l : List KnowledgeGraphResponse) (st : MergeState),
      absorbed st g → absorbed (l.foldl mergeGraphStep st) g
  | [], _, h => h
  | a :: t, st, h => absorbed_foldl_mono t (mergeGraphStep st a) (absorbed_mono h a)

lemma all_absorbed (g : KnowledgeGraphResponse) :
    ∀ (l : List KnowledgeGraphResponse) (st : MergeState),
      g ∈ l → absorbed (l.foldl mergeGraphStep st) g
  | [], _, h => absurd h (List.not_mem_nil g)
  | a :: t, st, h => by
    rcases List.mem_cons.mp h with h1 | h2
    · subst h1
      exact absorbed_foldl_mono t (mergeGraphStep st g) (absorbed_step st g)
    · exact all_absorbed g t (mergeGraphStep st a) h2

lemma foldl_merge_fix :
    ∀ (l : List KnowledgeGraphResponse) (st : MergeState),
      (∀ g ∈ l, absorbed st g) → l.foldl mergeGraphStep st = st
  | [], _, _ => rfl
  | a :: t, st, h => by
    have ha : mergeGraphStep st a = st := absorbed_fix (h a (List.mem_cons_self a t))
    calc (a :: t).foldl mergeGraphStep st = t.foldl mergeGraphStep (mergeGraphStep st a) := rfl
    _ = t.foldl mergeGraphStep st := by rw [ha]
    _ = st := foldl_merge_fix t st (fun g hg => h g (List.mem_cons_of_mem a hg))

/-- C8: merging any list of chunk graphs concatenated with itself yields a
DocumentGraph identical to merging the list once — node dedup by id and
relationship dedup by (source, target, type) make repeated input a no-op. -/
theorem C8_merge_self_idempotent (l : List KnowledgeGraphResponse) :
    _merge_graphs (l ++ l) = _merge_graphs l := by
  unfold _merge_graphs
  rw [List.foldl_append,
    foldl_merge_fix l (l.foldl mergeGraphStep ⟨[], [], []⟩)
      (fun g hg => all_absorbed g l ⟨[], [], []⟩ hg)]

/-! ## Claims about the chunk-failure policy (`process_text_in_chunks`) -/

/-- C6 counterexample: with a single failed chunk whose error is `"boom"`, the
pipeline raises, but the raised error is the fixed message, which does not
carry (contain) the underlying error text — refuting the parenthetical of the
claim that the fatal error carries the underlying errors. -/
theorem C6_counterexample :
    process_chunk_results [Except.error "boom"] = .error noGraphMsg ∧
      containsSub "boom".data noGraphMsg.data = false := by decide

/-- C6 amended: the ingestion pipeline raises a fatal error if and only if
every chunk's extraction failed, and the raised error always carries the fixed
message (the underlying errors are only printed, not carried). -/
theorem C6_failure_policy (results : List (Except String KnowledgeGraphResponse)) :
    ((∃ m, process_chunk_results results = .error m) ↔
        ∀ r ∈ results, ∃ e, r = .error e) ∧
      ∀ m, process_chunk_results results = .error m → m = noGraphMsg := by
  constructor
  · constructor
    · rintro ⟨m, hm⟩ r hr
      simp only [process_chunk_results] at hm
      split at hm
      next hempty =>
        have hnil : results.filterMap
            (fun r => match r with | .ok g => some g | .error _ => none) = [] :=
          List.isEmpty_iff.mp hempty
        have := List.filterMap_eq_nil_iff.mp hnil r hr
        match r, this with
        | .error e, _ => exact ⟨e, rfl⟩
      next => exact absurd hm (by simp)
    · intro h
      refine ⟨noGraphMsg, ?_⟩
      simp only [process_chunk_results]
      rw [if_pos]
      apply List.isEmpty_iff.mpr
      apply List.filterMap_eq_nil_iff.mpr
      intro r hr
      obtain ⟨e, he⟩ := h r hr
      subst he
      rfl
  · intro m hm
    simp only [process_chunk_results] at hm
    split at hm
    next => exact (Except.error.injEq _ _).mp hm |>.symm ▸ rfl
    next => exact absurd hm (by simp)

/-- C6 witness: instantiating the failure policy on a single failed chunk. -/
theorem C6_failure_policy_witness :
    ∃ m, process_chunk_results [Except.error "x"] = .error m :=
  (C6_failure_policy [Except.error "x"]).1.mpr
    (by intro r hr; rw [List.mem_singleton.mp hr]; exact ⟨"x", rfl⟩)

/-! ## Claims about `_chunk_text` -/

/-- C4: with `len(text) > chunk_size` the chunker does not clamp the overlap:
an overlap equal to the chunk size makes `range` raise `ValueError` (step 0),
and a larger overlap gives a negative step, so the chunker returns an empty
list covering nothing — the code violates the claimed clamping behaviour. -/
theorem C4_failing_input :
    _chunk_text "abcd".data 3 3 = .error "range() arg 3 must not be zero" ∧
      _chunk_text "abcd".data 3 4 = .ok [] := by decide

/-- C3 counterexample: for the 10-character text with `chunk_size = 6` and
`overlap = 2` the chunker returns 3 chunks, but the claimed count
`ceil((len(T)-overlap)/(chunk_size-overlap))` is 2. -/
theorem C3_counterexample :
    _chunk_text "abcdefghij".data 6 2 =
        .ok ["abcdef".data, "efghij".data, "ij".data] ∧
      ¬ ((3 : Nat) = (("abcdefghij".data.length - 2) + (6 - 2) - 1) / (6 - 2)) := by
  decide

/-! ## Lemmas about `pyRangeUp` and the chunker -/

lemma pyRangeUpAux_congr (step : Nat) (hs : 0 < step) :
    ∀ (f1 f2 start stop : Nat), stop - start ≤ f1 → stop - start ≤ f2 →
      pyRangeUpAux step f1 start stop = pyRangeUpAux step f2 start stop
  | 0, f2, start, stop, h1, h2 => by
    have h : ¬ start < stop := by omega
    cases f2 with
    | zero => rfl
    | succ f2 => simp [pyRangeUpAux, h]
  | f1 + 1, f2, start, stop, h1, h2 => by
    cases f2 with
    | zero =>
      have h : ¬ start < stop := by omega
      simp [pyRangeUpAux, h]
    | succ f2 =>
      by_cases h : start < stop
      · simp only [pyRangeUpAux, if_pos h]
        rw [pyRangeUpAux_congr step hs f1 f2 (start + step) stop (by omega) (by omega)]
      · simp [pyRangeUpAux, h]

lemma pyRangeUp_nil {start stop step : Nat} (h : ¬(0 < step ∧ start < stop)) :
    pyRangeUp start stop step = [] := by
  unfold pyRangeUp
  by_cases hs : 0 < step
  · have hlt : ¬ start < stop := fun hl => h ⟨hs, hl⟩
    simp [pyRangeUpAux, hlt]
  · simp [hs]

lemma pyRangeUp_cons {start stop step : Nat} (hs : 0 < step) (hlt : start < stop) :
    pyRangeUp start stop step = start :: pyRangeUp (start + step) stop step := by
  unfold pyRangeUp
  simp only [if_pos hs]
  have h1 : pyRangeUpAux step (stop + 1) start stop =
      start :: pyRangeUpAux step stop (start + step) stop := by
    simp [pyRangeUpAux, hlt]
  rw [h1, pyRangeUpAux_congr step hs stop (stop + 1) (start + step) stop (by omega) (by omega)]

lemma pyRangeUp_length (step : Nat) (hs : 0 < step) :
    ∀ (k start stop : Nat), stop - start ≤ k →
      (pyRangeUp start stop step).length = (stop - start + step - 1) / step
  | 0, start, stop, hk => by
    have h : ¬ start < stop := by omega
    rw [pyRangeUp_nil (fun hc => h hc.2)]
    have h0 : stop - start = 0 := by omega
    rw [h0]
    exact (Nat.div_eq_of_lt (show 0 + step - 1 < step by omega)).symm
  | k + 1, start, stop, hk => by
    by_cases h : start < stop
    · rw [pyRangeUp_cons hs h]
      have ih := pyRangeUp_length step hs k (start + step) stop (by omega)
      simp only [List.length_cons, ih]
      have hms : stop - (start + step) = (stop - start) - step := by omega
      rw [hms]
      by_cases h2 : step ≤ stop - start
      · have e1 : (stop - start) - step + step - 1 = (stop - start) - 1 := by omega
        have e2 : stop - start + step - 1 = ((stop - start) - 1) + step := by omega
        rw [e1, e2, Nat.add_div_right _ hs]
      · have e1 : (stop - start) - step = 0 := by omega
        rw [e1, Nat.div_eq_of_lt (show 0 + step - 1 < step by omega)]
        rw [eq_comm]
        exact Nat.div_eq_of_lt_le (by omega) (by omega)
    · rw [pyRangeUp_nil (fun hc => h hc.2)]
      have h0 : stop - start = 0 := by omega
      rw [h0]
      exact (Nat.div_eq_of_lt (show 0 + step - 1 < step by omega)).symm

lemma chunk_recon (step ov : Nat) (hs : 0 < step) (text : List Char) :
    ∀ (k i : Nat), text.length - i ≤ k →
      pySlice text i (step + ov) ++
        ((pyRangeUp (i + step) text.length step).map
          (fun j => (pySlice text j (step + ov)).drop ov)).flatten = text.drop i
  | 0, i, hk => by
    have hi : text.length ≤ i := by omega
    rw [pyRangeUp_nil (fun hc => by omega)]
    simp [pySlice, List.drop_eq_nil_of_le hi]
  | k + 1, i, hk => by
    by_cases h : i + step < text.length
    · rw [pyRangeUp_cons hs h]
      simp only [List.map_cons, List.flatten_cons]
      have ih := chunk_recon step ov hs text k (i + step) (by omega)
      unfold pySlice at ih ⊢
      have fB : (text.drop i).drop step = text.drop (i + step) := List.drop_drop step i text
      have f4 : (text.drop i).take (step + ov) =
          (text.drop i).take step ++ ((text.drop i).drop step).take ov :=
        List.take_add (text.drop i) step ov
      have f5 : ((text.drop (i + step)).take (step + ov)).drop ov =
          ((text.drop (i + step)).drop ov).take step := by
        rw [List.drop_take]
        congr 1
        omega
      have ih2 : (text.drop (i + step)).take ov ++
          (((text.drop (i + step)).drop ov).take step ++
            ((pyRangeUp (i + step + step) text.length step).map
              (fun j => ((text.drop j).take (step + ov)).drop ov)).flatten) =
          text.drop (i + step) := by
        have e : (text.drop (i + step)).take (step + ov) =
            (text.drop (i + step)).take ov ++ ((text.drop (i + step)).drop ov).take step := by
          rw [show step + ov = ov + step from Nat.add_comm step ov]
          exact List.take_add (text.drop (i + step)) ov step
        rw [e] at ih
        simpa [List.append_assoc] using ih
      calc (text.drop i).take (step + ov) ++
            (((text.drop (i + step)).take (step + ov)).drop ov ++
              ((pyRangeUp (i + step + step) text.length step).map
                (fun j => ((text.drop j).take (step + ov)).drop ov)).flatten)
          = (text.drop i).take step ++
            ((text.drop (i + step)).take ov ++
              (((text.drop (i + step)).drop ov).take step ++
                ((pyRangeUp (i + step + step) text.length step).map
                  (fun j => ((text.drop j).take (step + ov)).drop ov)).flatten)) := by
            rw [f4, f5, fB]
            simp [List.append_assoc]
      _ = (text.drop i).take step ++ text.drop (i + step) := by rw [ih2]
      _ = (text.drop i).take step ++ (text.drop i).drop step := by rw [fB]
      _ = text.drop i := List.take_append_drop step (text.drop i)
    · rw [pyRangeUp_nil (fun hc => h hc.2)]
      simp only [List.map_nil, List.flatten_nil, List.append_nil]
      unfold pySlice
      apply List.take_of_length_le
      simp
      omega

/-- C3 amended: with `0 < overlap < chunk_size`, a text at most `chunk_size`
long chunks to the singleton `[text]`; a longer text chunks so that the first
chunk followed by the later chunks stripped of their leading `overlap`
characters reconstructs the text exactly, and the number of chunks is
`ceil(len(T) / (chunk_size - overlap))` — not
`ceil((len(T) - overlap) / (chunk_size - overlap))` as claimed. -/
theorem C3_chunker (text : List Char) (chunk_size overlap : Nat)
    (h0 : 0 < overlap) (h1 : overlap < chunk_size) :
    (text.length ≤ chunk_size → _chunk_text text chunk_size overlap = .ok [text]) ∧
      (chunk_size < text.length →
        ∃ c cs, _chunk_text text chunk_size overlap = .ok (c :: cs) ∧
          c ++ (cs.map (fun chunk => chunk.drop overlap)).flatten = text ∧
          (c :: cs).length =
            (text.length + (chunk_size - overlap) - 1) / (chunk_size - overlap)) := by
  constructor
  · intro hle
    unfold _chunk_text
    rw [if_pos hle]
  · intro hgt
    have hns : ¬ text.length ≤ chunk_size := by omega
    have hstep : (0 : Int) < (chunk_size : Int) - (overlap : Int) := by
      omega
    have hsnat : ((chunk_size : Int) - (overlap : Int)).toNat = chunk_size - overlap := by
      omega
    have hs : 0 < chunk_size - overlap := by omega
    have hrange : pyRange 0 text.length ((chunk_size : Int) - (overlap : Int)) =
        .ok (pyRangeUp 0 text.length (chunk_size - overlap)) := by
      unfold pyRange
      rw [if_neg (by omega), if_pos hstep, hsnat]
    have hcons : pyRangeUp 0 text.length (chunk_size - overlap) =
        0 :: pyRangeUp (0 + (chunk_size - overlap)) text.length (chunk_size - overlap) :=
      pyRangeUp_cons hs (by omega)
    unfold _chunk_text
    rw [if_neg hns, hrange]
    refine ⟨pySlice text 0 chunk_size,
      (pyRangeUp (0 + (chunk_size - overlap)) text.length (chunk_size - overlap)).map
        (fun i => pySlice text i chunk_size), ?_, ?_, ?_⟩
    · simp only [Except.map, hcons, List.map_cons]
    · have hrecon := chunk_recon (chunk_size - overlap) overlap hs text
        text.length 0 (by omega)
      have hco : chunk_size - overlap + overlap = chunk_size := by omega
      rw [hco] at hrecon
      simp only [List.drop_zero] at hrecon
      rw [List.map_map]
      simpa [Function.comp] using hrecon
    · have hlen := pyRangeUp_length (chunk_size - overlap) hs text.length 0 text.length
        (by omega)
      rw [hcons] at hlen
      simp only [List.length_cons, List.length_map]
      simp only [List.length_cons, Nat.sub_zero] at hlen
      omega

/-- C3 witness: the amended chunker contract evaluated on the 10-character
text with chunk size 6 and overlap 2. -/
theorem C3_chunker_witness :
    ∃ c cs, _chunk_text "abcdefghij".data 6 2 = .ok (c :: cs) ∧
      c ++ (cs.map (fun chunk => chunk.drop 2)).flatten = "abcdefghij".data ∧
      (c :: cs).length = ("abcdefghij".data.length + (6 - 2) - 1) / (6 - 2) :=
  (C3_chunker "abcdefghij".data 6 2 (by decide) (by decide)).2 (by decide)

/-! ## Adjacency and path discovery (knowledge_graph.py lines 133-177) -/

/-- The dict comprehension `{node.id: [] for node in graph.nodes}`: an
insertion-ordered association list whose keys are the node ids (a duplicate id
re-assigns the same empty list, so only the first occurrence matters). -/
def initAdj (nodes : List Node) : List (String × List String) :=
  nodes.foldl
    (fun acc n => if acc.any (fun p => p.1 == n.id) then acc else acc ++ [(n.id, [])]) []

/-- `adj[k].append(v)`, a no-op when `k` is not a key — matching the
`if r.source in adj` / `if r.target in adj` guards. -/
def adjAppend (adj : List (String × List String)) (k v : String) :
    List (String × List String) :=
  adj.map (fun p => if p.1 == k then (p.1, p.2 ++ [v]) else p)

/-- knowledge_graph.py lines 133-139, `_build_adjacency`: each relationship
contributes a forward edge and (for reverse traversal) a backward edge, each
guarded by its endpoint being a declared key. -/
def _build_adjacency (g : KnowledgeGraphResponse) : List (String × List String) :=
  g.relationships.foldl
    (fun adj r => adjAppend (adjAppend adj r.source r.target) r.target r.source)
    (initAdj g.nodes)

/-- `adj.get(curr, [])` on the insertion-ordered association list. -/
def adjGet : List (String × List String) → String → List String
  | [], _ => []
  | p :: rest, k => if p.1 == k then p.2 else adjGet rest k

/-- A queue entry of the breadth-first search: the current node and the path
(node ids from the origin to the current node). -/
abbrev BfsEntry := String × List String

/-- The `for nb in adj.get(curr, []): if nb not in visited: ...` loop of
`path_discovery`: each unvisited neighbour is added to the visited set and an
extended path is appended to the back of the queue. -/
def pushNbrs (path : List String) :
    List String → List String → List BfsEntry → List String × List BfsEntry
  | [], visited, q => (visited, q)
  | nb :: rest, visited, q =>
    if nb ∈ visited then pushNbrs path rest visited q
    else pushNbrs path rest (nb :: visited) (q ++ [(nb, path ++ [nb])])

/-- The `while q:` loop of `path_discovery` for one (source, target) pair.
Fuel makes the recursion structural: every iteration pops one entry, and at
most `1 + adjWeight adj` entries are ever enqueued because each push consumes
one unvisited neighbour occurrence, so the fuel passed by `bfsPairPaths` is
never exhausted before the queue empties. -/
def bfsLoop (adj : List (String × List String)) (t : String) (maxHops : Nat) :
    Nat → List BfsEntry → List String → List (List String) → List (List String)
  | 0, _, _, acc => acc
  | _ + 1, [], _, acc => acc
  | fuel + 1, (curr, path) :: q, visited, acc =>
    if maxHops < path.length then bfsLoop adj t maxHops fuel q visited acc
    else if curr = t then bfsLoop adj t maxHops fuel q visited (acc ++ [path])
    else
      let vq := pushNbrs path (adjGet adj curr) visited q
      bfsLoop adj t maxHops fuel vq.2 vq.1 acc

/-- Total number of neighbour occurrences in the adjacency list: an upper
bound on how many queue entries the search can ever create. -/
def adjWeight (adj : List (String × List String)) : Nat :=
  adj.foldl (fun n p => n + p.2.length) 0

/-- One (source, target) search of `path_discovery`: queue seeded with
`(s, [s])` and the per-search visited set seeded with `{s}`. -/
def bfsPairPaths (adj : List (String × List String)) (s t : String) (maxHops : Nat) :
    List (List String) :=
  bfsLoop adj t maxHops (2 + adjWeight adj) [(s, [s])] [s] []

/-- knowledge_graph.py line 147. -/
def source_keywords : List String :=
  ["contamin", "particle", "metal", "ion", "precursor", "surface", "membrane",
   "material", "impurity"]

/-- knowledge_graph.py line 148. -/
def outcome_keywords : List String :=
  ["yield", "loss", "failure", "degrad", "resist", "performance", "defect",
   "wafer", "corrosion"]

/-- Python `str.lower()` restricted to ASCII (all keywords are ASCII). -/
def lowerStr (s : String) : List Char := s.data.map Char.toLower

/-- `any(k in low for k in keywords)` of `path_discovery`. -/
def matchesAny (keywords : List String) (nid : String) : Bool :=
  keywords.any (fun k => containsSub k.data (lowerStr nid))

/-- Key order of the `node_lower` dict: node ids in first-occurrence order. -/
def dedupIds (l : List String) : List String :=
  l.foldl (fun acc x => if x ∈ acc then acc else acc ++ [x]) []

/-- The node ids of a graph in `node_lower` iteration order. -/
def nodeIds (g : KnowledgeGraphResponse) : List String :=
  dedupIds (g.nodes.map (fun n => n.id))

/-- knowledge_graph.py line 150: the source-like candidate nodes. -/
def sourcesOf (g : KnowledgeGraphResponse) : List String :=
  (nodeIds g).filter (matchesAny source_keywords)

/-- knowledge_graph.py line 151: the outcome-like candidate nodes. -/
def targetsOf (g : KnowledgeGraphResponse) : List String :=
  (nodeIds g).filter (matchesAny outcome_keywords)

/-- The contribution of one ordered pair to the pooled `all_paths`; the
`if s == t: continue` of the source is modelled as contributing no paths. -/
def pairPaths (adj : List (String × List String)) (maxHops : Nat) (s t : String) :
    List (List String) :=
  if s = t then [] else bfsPairPaths adj s t maxHops

/-- Stable insertion placing `p` after all entries of at most its length —
the stable `list.sort(key=len)` of Python. -/
def insertByLen (p : List String) : List (List String) → List (List String)
  | [] => [p]
  | q :: rest => if q.length ≤ p.length then q :: insertByLen p rest else p :: q :: rest

/-- Stable sort by path length (Python's `sort` is stable). -/
def sortByLen (l : List (List String)) : List (List String) :=
  l.foldl (fun acc p => insertByLen p acc) []

/-- knowledge_graph.py lines 141-177, `path_discovery`. -/
def path_discovery (g : KnowledgeGraphResponse) (max_hops : Nat := 4) (top_k : Nat := 5) :
    List (List String) :=
  let adj := _build_adjacency g
  if adj.isEmpty then [] else
  let sources := sourcesOf g
  let targets := targetsOf g
  if sources.isEmpty || targets.isEmpty then [] else
  let all_paths := sources.foldl
    (fun acc s => targets.foldl (fun acc2 t => acc2 ++ pairPaths adj max_hops s t) acc) []
  if all_paths.isEmpty then []
  else (sortByLen all_paths).take top_k

/-- Membership in an adjacency list as a key. -/
def isKey (adj : List (String × List String)) (x : String) : Bool :=
  adj.any (fun p => p.1 == x)

/-- Adjacency along the undirected view: `y` occurs among the stored
neighbours of `x`. -/
def adjacentIn (adj : List (String × List String)) (x y : String) : Bool :=
  (adjGet adj x).contains y

/-- No duplicates, as a boolean. -/
def nodupB : List String → Bool
  | [] => true
  | x :: t => !t.contains x && nodupB t

/-- Consecutive elements are adjacent in the undirected view. -/
def chainAdj (adj : List (String × List String)) : List String → Bool
  | [] => true
  | [_] => true
  | x :: y :: rest => adjacentIn adj x y && chainAdj adj (y :: rest)

/-- A simple path (no repeated nodes) in the undirected adjacency view. -/
def isSimplePathIn (adj : List (String × List String)) (p : List String) : Bool :=
  chainAdj adj p && nodupB p

/-! ## Lemmas about the bounded breadth-first search -/

/-- The queue entries whose current node is `t`. -/
def isTEntry (t : String) (e : BfsEntry) : Bool := e.1 == t

lemma bfsLoop_len (adj : List (String × List String)) (t : String) (maxHops : Nat) :
    ∀ (fuel : Nat) (q : List BfsEntry) (visited : List String) (acc : List (List String)),
      (∀ p ∈ acc, p.length ≤ maxHops) →
      ∀ p ∈ bfsLoop adj t maxHops fuel q visited acc, p.length ≤ maxHops
  | 0, q, visited, acc, hacc => hacc
  | fuel + 1, [], visited, acc, hacc => hacc
  | fuel + 1, (curr, path) :: q, visited, acc, hacc => by
    simp only [bfsLoop]
    by_cases h1 : maxHops < path.length
    · rw [if_pos h1]
      exact bfsLoop_len adj t maxHops fuel q visited acc hacc
    · rw [if_neg h1]
      by_cases h2 : curr = t
      · rw [if_pos h2]
        refine bfsLoop_len adj t maxHops fuel q visited (acc ++ [path]) ?_
        intro p hp
        rcases List.mem_append.mp hp with h | h
        · exact hacc p h
        · rw [List.mem_singleton.mp h]
          omega
      · rw [if_neg h2]
        exact bfsLoop_len adj t maxHops fuel _ _ acc hacc

lemma pushNbrs_t (t : String) (path : List String) :
    ∀ (nbrs visited : List String) (q : List BfsEntry),
      (t ∈ visited →
        ((pushNbrs path nbrs visited q).2.countP (isTEntry t) = q.countP (isTEntry t) ∧
          t ∈ (pushNbrs path nbrs visited q).1)) ∧
      (t ∉ visited →
        ((pushNbrs path nbrs visited q).2.countP (isTEntry t) ≤ q.countP (isTEntry t) + 1 ∧
          (t ∉ (pushNbrs path nbrs visited q).1 →
            (pushNbrs path nbrs visited q).2.countP (isTEntry t) = q.countP (isTEntry t))))
  | [], visited, q => by
    constructor
    · intro h
      exact ⟨rfl, h⟩
    · intro h
      exact ⟨Nat.le_succ _, fun _ => rfl⟩
  | nb :: rest, visited, q => by
    simp only [pushNbrs]
    by_cases hmem : nb ∈ visited
    · rw [if_pos hmem]
      exact pushNbrs_t t path rest visited q
    · rw [if_neg hmem]
      have ih := pushNbrs_t t path rest (nb :: visited) (q ++ [(nb, path ++ [nb])])
      have hcount : (q ++ [(nb, path ++ [nb])]).countP (isTEntry t) =
          q.countP (isTEntry t) + (if (nb == t) = true then 1 else 0) := by
        simp [List.countP_append, List.countP_cons, isTEntry]
      by_cases hnbt : nb = t
      · constructor
        · intro h
          exact absurd (hnbt ▸ h) hmem
        · intro h
          have h1 := ih.1 (by rw [hnbt]; exact List.mem_cons_self t visited)
          refine ⟨?_, fun hnv2 => absurd h1.2 hnv2⟩
          rw [h1.1, hcount]
          simp [hnbt]
      · have hkeep : (q ++ [(nb, path ++ [nb])]).countP (isTEntry t) =
            q.countP (isTEntry t) := by
          rw [hcount]
          simp [hnbt]
        constructor
        · intro h
          have h1 := ih.1 (List.mem_cons_of_mem nb h)
          exact ⟨by rw [h1.1, hkeep], h1.2⟩
        · intro h
          have hnv : t ∉ nb :: visited := by
            intro hc
            rcases List.mem_cons.mp hc with hc1 | hc2
            · exact hnbt hc1.symm
            · exact h hc2
          have h2 := ih.2 hnv
          rw [hkeep] at h2
          exact h2

lemma bfsLoop_count (adj : List (String × List String)) (t : String) (maxHops : Nat) :
    ∀ (fuel : Nat) (q : List BfsEntry) (visited : List String) (acc : List (List String)),
      acc.length + q.countP (isTEntry t) ≤ 1 →
      (t ∉ visited → acc.length + q.countP (isTEntry t) = 0) →
      (bfsLoop adj t maxHops fuel q visited acc).length ≤ 1
  | 0, q, visited, acc, h1, h2 => by
    simp only [bfsLoop]
    omega
  | fuel + 1, [], visited, acc, h1, h2 => by
    simp only [bfsLoop]
    simp only [List.countP_nil] at h1
    omega
  | fuel + 1, (curr, path) :: q, visited, acc, h1, h2 => by
    simp only [bfsLoop]
    have hc : ((curr, path) :: q).countP (isTEntry t) =
        q.countP (isTEntry t) + (if (curr == t) = true then 1 else 0) := by
      simp [List.countP_cons, isTEntry]
    by_cases hskip : maxHops < path.length
    · rw [if_pos hskip]
      apply bfsLoop_count adj t maxHops fuel q visited acc
      · omega
      · intro ht
        have := h2 ht
        omega
    · rw [if_neg hskip]
      by_cases hct : curr = t
      · rw [if_pos hct]
        have hif : (if (curr == t) = true then 1 else 0) = 1 := by simp [hct]
        apply bfsLoop_count adj t maxHops fuel q visited (acc ++ [path])
        · have hia : (acc ++ [path]).length = acc.length + 1 := by simp
          omega
        · intro ht
          have h0 := h2 ht
          have hia : (acc ++ [path]).length = acc.length + 1 := by simp
          omega
      · rw [if_neg hct]
        have hif : (if (curr == t) = true then 1 else 0) = 0 := by simp [hct]
        obtain ⟨P1, P2⟩ := pushNbrs_t t path (adjGet adj curr) visited q
        by_cases hv : t ∈ visited
        · obtain ⟨he, hv2⟩ := P1 hv
          apply bfsLoop_count adj t maxHops fuel _ _ acc
          · rw [he]
            omega
          · intro ht
            exact absurd hv2 ht
        · have h0 := h2 hv
          obtain ⟨hle, heq⟩ := P2 hv
          apply bfsLoop_count adj t maxHops fuel _ _ acc
          · omega
          · intro ht2
            rw [heq ht2]
            omega

lemma bfsPairPaths_le_one (adj : List (String × List String)) (s t : String)
    (maxHops : Nat) : (bfsPairPaths adj s t maxHops).length ≤ 1 := by
  unfold bfsPairPaths
  apply bfsLoop_count adj t maxHops (2 + adjWeight adj) [(s, [s])] [s] []
  · have : ([(s, [s])] : List BfsEntry).countP (isTEntry t) ≤ 1 := by
      simp only [List.countP_cons, List.countP_nil, isTEntry]
      split <;> omega
    simpa using this
  · intro ht
    have hst : (s == t) = false := by
      refine beq_eq_false_iff_ne.mpr ?_
      intro h
      exact ht (h ▸ List.mem_cons_self s [])
    simp [List.countP_cons, List.countP_nil, isTEntry, hst]

/-- Queue-entry invariant: the stored path ends at the current node and all
earlier path elements are declared adjacency keys. -/
def EntryInv (adj : List (String × List String)) (e : BfsEntry) : Prop :=
  ∃ p0, e.2 = p0 ++ [e.1] ∧ ∀ x ∈ p0, isKey adj x = true

/-- Every element of a discovered path is an adjacency key or the target. -/
def PathOk (adj : List (String × List String)) (t : String) (p : List String) : Prop :=
  ∀ x ∈ p, isKey adj x = true ∨ x = t

lemma adjGet_isKey : ∀ (adj : List (String × List String)) (k : String),
    adjGet adj k ≠ [] → isKey adj k = true
  | [], k, h => absurd rfl h
  | p :: rest, k, h => by
    simp only [adjGet] at h
    by_cases hk : (p.1 == k) = true
    · simp [isKey, List.any_cons, hk]
    · rw [if_neg hk] at h
      have ht := adjGet_isKey rest k h
      simp only [isKey, List.any_cons, Bool.or_eq_true]
      exact Or.inr (by simpa [isKey] using ht)

lemma pushNbrs_entries (path : List String) :
    ∀ (nbrs visited : List String) (q : List BfsEntry) (e : BfsEntry),
      e ∈ (pushNbrs path nbrs visited q).2 →
      e ∈ q ∨ ∃ nb, nb ∈ nbrs ∧ e = (nb, path ++ [nb])
  | [], visited, q, e, h => .inl h
  | nb :: rest, visited, q, e, h => by
    simp only [pushNbrs] at h
    by_cases hmem : nb ∈ visited
    · rw [if_pos hmem] at h
      rcases pushNbrs_entries path rest visited q e h with h1 | ⟨b, hb, he⟩
      · exact .inl h1
      · exact .inr ⟨b, List.mem_cons_of_mem nb hb, he⟩
    · rw [if_neg hmem] at h
      rcases pushNbrs_entries path rest (nb :: visited) (q ++ [(nb, path ++ [nb])]) e h with
        h1 | ⟨b, hb, he⟩
      · rcases List.mem_append.mp h1 with h2 | h2
        · exact .inl h2
        · exact .inr ⟨nb, List.mem_cons_self nb rest, List.mem_singleton.mp h2⟩
      · exact .inr ⟨b, List.mem_cons_of_mem nb hb, he⟩

lemma bfsLoop_decl (adj : List (String × List String)) (t : String) (maxHops : Nat) :
    ∀ (fuel : Nat) (q : List BfsEntry) (visited : List String) (acc : List (List String)),
      (∀ e ∈ q, EntryInv adj e) →
      (∀ p ∈ acc, PathOk adj t p) →
      ∀ p ∈ bfsLoop adj t maxHops fuel q visited acc, PathOk adj t p
  | 0, q, visited, acc, hq, hacc => hacc
  | fuel + 1, [], visited, acc, hq, hacc => hacc
  | fuel + 1, (curr, path) :: q, visited, acc, hq, hacc => by
    simp only [bfsLoop]
    have hqtail : ∀ e ∈ q, EntryInv adj e := fun e he => hq e (List.mem_cons_of_mem _ he)
    have hhead : EntryInv adj (curr, path) := hq _ (List.mem_cons_self _ _)
    by_cases h1 : maxHops < path.length
    · rw [if_pos h1]
      exact bfsLoop_decl adj t maxHops fuel q visited acc hqtail hacc
    · rw [if_neg h1]
      by_cases h2 : curr = t
      · rw [if_pos h2]
        refine bfsLoop_decl adj t maxHops fuel q visited (acc ++ [path]) hqtail ?_
        intro p hp
        rcases List.mem_append.mp hp with h | h
        · exact hacc p h
        · rw [List.mem_singleton.mp h]
          obtain ⟨p0, hp0, hkeys⟩ := hhead
          have hp0' : path = p0 ++ [curr] := hp0
          intro x hx
          rw [hp0'] at hx
          rcases List.mem_append.mp hx with hxa | hxb
          · exact .inl (hkeys x hxa)
          · exact .inr ((List.mem_singleton.mp hxb).trans h2)
      · rw [if_neg h2]
        apply bfsLoop_decl adj t maxHops fuel _ _ acc ?_ hacc
        intro e he
        rcases pushNbrs_entries path (adjGet adj curr) visited q e he with h | ⟨nb, hnb, hePair⟩
        · exact hqtail e h
        · have hck : isKey adj curr = true := adjGet_isKey adj curr (List.ne_nil_of_mem hnb)
          obtain ⟨p0, hp0, hkeys⟩ := hhead
          have hp0' : path = p0 ++ [curr] := hp0
          refine ⟨path, by rw [hePair], ?_⟩
          intro x hx
          rw [hp0'] at hx
          rcases List.mem_append.mp hx with hxa | hxb
          · exact hkeys x hxa
          · rw [List.mem_singleton.mp hxb]
            exact hck

lemma isKey_adjAppend : ∀ (adj : List (String × List String)) (k v x : String),
    isKey (adjAppend adj k v) x = isKey adj x
  | [], _, _, _ => rfl
  | p :: rest, k, v, x => by
    simp only [adjAppend, List.map_cons, isKey, List.any_cons]
    rw [show ((if (p.1 == k) = true then (p.1, p.2 ++ [v]) else p).1 == x) = (p.1 == x) by
      split <;> rfl]
    have ht := isKey_adjAppend rest k v x
    simp only [adjAppend, isKey] at ht
    rw [ht]

lemma isKey_build_fold : ∀ (rels : List Relationship) (adj : List (String × List String))
    (x : String),
    isKey (rels.foldl
      (fun adj r => adjAppend (adjAppend adj r.source r.target) r.target r.source) adj) x =
      isKey adj x
  | [], adj, x => rfl
  | r :: rest, adj, x => by
    simp only [List.foldl_cons]
    rw [isKey_build_fold rest _ x, isKey_adjAppend, isKey_adjAppend]

lemma isKey_initAdj : ∀ (nodes : List Node) (acc : List (String × List String)) (x : String),
    isKey (nodes.foldl
        (fun acc n => if acc.any (fun p => p.1 == n.id) then acc else acc ++ [(n.id, [])])
        acc) x = true ↔
      isKey acc x = true ∨ ∃ n ∈ nodes, n.id = x
  | [], acc, x => by simp
  | a :: tl, acc, x => by
    simp only [List.foldl_cons]
    by_cases h : acc.any (fun p => p.1 == a.id) = true
    · rw [if_pos h, isKey_initAdj tl acc x]
      constructor
      · rintro (h1 | ⟨n, hn, hx⟩)
        · exact .inl h1
        · exact .inr ⟨n, List.mem_cons_of_mem a hn, hx⟩
      · rintro (h1 | ⟨n, hn, hx⟩)
        · exact .inl h1
        · rcases List.mem_cons.mp hn with rfl | hn2
          · left
            subst hx
            exact h
          · exact .inr ⟨n, hn2, hx⟩
    · rw [if_neg h, isKey_initAdj tl (acc ++ [(a.id, [])]) x]
      have hk : isKey (acc ++ [(a.id, [])]) x = (isKey acc x || (a.id == x)) := by
        simp [isKey, List.any_append]
      rw [hk]
      constructor
      · rintro (h1 | ⟨n, hn, hx⟩)
        · rw [Bool.or_eq_true] at h1
          rcases h1 with h2 | h2
          · exact .inl h2
          · exact .inr ⟨a, List.mem_cons_self a tl, beq_iff_eq.mp h2⟩
        · exact .inr ⟨n, List.mem_cons_of_mem a hn, hx⟩
      · rintro (h1 | ⟨n, hn, hx⟩)
        · exact .inl (by rw [Bool.or_eq_true]; exact .inl h1)
        · rcases List.mem_cons.mp hn with rfl | hn2
          · exact .inl (by rw [Bool.or_eq_true]; exact .inr (beq_iff_eq.mpr hx))
          · exact .inr ⟨n, hn2, hx⟩

lemma isKey_adjacency (g : KnowledgeGraphResponse) (x : String) :
    isKey (_build_adjacency g) x = true ↔ ∃ n ∈ g.nodes, n.id = x := by
  unfold _build_adjacency initAdj
  rw [isKey_build_fold, isKey_initAdj]
  simp [isKey]

lemma mem_foldl_append {α β : Type} (f : α → List β) :
    ∀ (l : List α) (init : List β) (x : β),
      x ∈ l.foldl (fun acc a => acc ++ f a) init → x ∈ init ∨ ∃ a ∈ l, x ∈ f a
  | [], init, x, h => .inl h
  | a :: tl, init, x, h => by
    rcases mem_foldl_append f tl (init ++ f a) x h with h1 | ⟨b, hb, hx⟩
    · rcases List.mem_append.mp h1 with h2 | h2
      · exact .inl h2
      · exact .inr ⟨a, List.mem_cons_self a tl, h2⟩
    · exact .inr ⟨b, List.mem_cons_of_mem a hb, hx⟩

lemma foldl_append_shift {α β : Type} (f : α → List β) :
    ∀ (l : List α) (init : List β),
      l.foldl (fun acc a => acc ++ f a) init = init ++ l.foldl (fun acc a => acc ++ f a) []
  | [], init => by simp
  | a :: tl, init => by
    simp only [List.foldl_cons]
    rw [foldl_append_shift f tl (init ++ f a), foldl_append_shift f tl ([] ++ f a)]
    simp [List.append_assoc]

lemma mem_all_paths {g : KnowledgeGraphResponse} {maxHops : Nat} {p : List String}
    (h : p ∈ (sourcesOf g).foldl
        (fun acc s => (targetsOf g).foldl
          (fun acc2 t => acc2 ++ pairPaths (_build_adjacency g) maxHops s t) acc) []) :
    ∃ s ∈ sourcesOf g, ∃ t ∈ targetsOf g, p ∈ pairPaths (_build_adjacency g) maxHops s t := by
  have hb : (fun (acc : List (List String)) (s : String) =>
      (targetsOf g).foldl
        (fun acc2 t => acc2 ++ pairPaths (_build_adjacency g) maxHops s t) acc) =
      fun acc s => acc ++ (targetsOf g).foldl
        (fun acc2 t => acc2 ++ pairPaths (_build_adjacency g) maxHops s t) [] := by
    funext acc s
    exact foldl_append_shift _ (targetsOf g) acc
  rw [hb] at h
  rcases mem_foldl_append _ (sourcesOf g) [] p h with h1 | ⟨s, hs, hx⟩
  · exact absurd h1 (List.not_mem_nil p)
  · rcases mem_foldl_append _ (targetsOf g) [] p hx with h2 | ⟨t, ht, hx2⟩
    · exact absurd h2 (List.not_mem_nil p)
    · exact ⟨s, hs, t, ht, hx2⟩

lemma mem_insertByLen {x p : List String} :
    ∀ (l : List (List String)), x ∈ insertByLen p l → x = p ∨ x ∈ l
  | [], h => .inl (List.mem_singleton.mp h)
  | q :: rest, h => by
    simp only [insertByLen] at h
    by_cases hle : q.length ≤ p.length
    · rw [if_pos hle] at h
      rcases List.mem_cons.mp h with h2 | h2
      · exact .inr (h2 ▸ List.mem_cons_self q rest)
      · rcases mem_insertByLen rest h2 with h3 | h3
        · exact .inl h3
        · exact .inr (List.mem_cons_of_mem q h3)
    · rw [if_neg hle] at h
      rcases List.mem_cons.mp h with h2 | h2
      · exact .inl h2
      · exact .inr h2

lemma mem_sortByLen_aux {x : List String} :
    ∀ (l acc : List (List String)),
      x ∈ l.foldl (fun acc p => insertByLen p acc) acc → x ∈ acc ∨ x ∈ l
  | [], acc, h => .inl h
  | p :: tl, acc, h => by
    rcases mem_sortByLen_aux tl (insertByLen p acc) h with h1 | h1
    · rcases mem_insertByLen acc h1 with h2 | h2
      · exact .inr (h2 ▸ List.mem_cons_self p tl)
      · exact .inl h2
    · exact .inr (List.mem_cons_of_mem p h1)

lemma mem_sortByLen {x : List String} {l : List (List String)}
    (h : x ∈ sortByLen l) : x ∈ l := by
  rcases mem_sortByLen_aux l [] h with h1 | h1
  · exact absurd h1 (List.not_mem_nil x)
  · exact h1

lemma mem_path_discovery {g : KnowledgeGraphResponse} {maxHops topK : Nat} {p : List String}
    (hp : p ∈ path_discovery g maxHops topK) :
    ∃ s ∈ sourcesOf g, ∃ t ∈ targetsOf g, s ≠ t ∧
      p ∈ bfsPairPaths (_build_adjacency g) s t maxHops := by
  simp only [path_discovery] at hp
  split at hp
  · exact absurd hp (List.not_mem_nil p)
  · split at hp
    · exact absurd hp (List.not_mem_nil p)
    · split at hp
      · exact absurd hp (List.not_mem_nil p)
      · have hp2 := List.take_subset _ _ hp
        have hp3 := mem_sortByLen hp2
        obtain ⟨s, hs, t, ht, hx⟩ := mem_all_paths hp3
        unfold pairPaths at hx
        by_cases hst : s = t
        · rw [if_pos hst] at hx
          exact absurd hx (List.not_mem_nil p)
        · rw [if_neg hst] at hx
          exact ⟨s, hs, t, ht, hst, hx⟩

lemma mem_dedupIds_aux {x : String} :
    ∀ (l acc : List String),
      x ∈ l.foldl (fun acc y => if y ∈ acc then acc else acc ++ [y]) acc →
        x ∈ acc ∨ x ∈ l
  | [], acc, h => .inl h
  | y :: tl, acc, h => by
    simp only [List.foldl_cons] at h
    by_cases hy : y ∈ acc
    · rw [if_pos hy] at h
      rcases mem_dedupIds_aux tl acc h with h1 | h1
      · exact .inl h1
      · exact .inr (List.mem_cons_of_mem y h1)
    · rw [if_neg hy] at h
      rcases mem_dedupIds_aux tl (acc ++ [y]) h with h1 | h1
      · rcases List.mem_append.mp h1 with h2 | h2
        · exact .inl h2
        · exact .inr ((List.mem_singleton.mp h2) ▸ List.mem_cons_self y tl)
      · exact .inr (List.mem_cons_of_mem y h1)

lemma mem_nodeIds {g : KnowledgeGraphResponse} {x : String} (h : x ∈ nodeIds g) :
    ∃ n ∈ g.nodes, n.id = x := by
  unfold nodeIds dedupIds at h
  rcases mem_dedupIds_aux (g.nodes.map (fun n => n.id)) [] h with h1 | h1
  · exact absurd h1 (List.not_mem_nil x)
  · obtain ⟨n, hn, hx⟩ := List.mem_map.mp h1
    exact ⟨n, hn, hx⟩

/-! ## Claim theorems about `path_discovery` -/

/-- The diamond graph metal–stepA–yield, metal–stepB–yield: one source
candidate (metal), one outcome candidate (yield), two simple two-edge routes
between them. -/
def diamondGraph : KnowledgeGraphResponse :=
  ⟨[⟨"metal", "Material"⟩, ⟨"stepA", "Process"⟩, ⟨"stepB", "Process"⟩, ⟨"yield", "Metric"⟩],
   [⟨"metal", "stepA", "IMPACTS"⟩, ⟨"stepA", "yield", "IMPACTS"⟩,
    ⟨"metal", "stepB", "IMPACTS"⟩, ⟨"stepB", "yield", "IMPACTS"⟩]⟩

/-- C2 counterexample: in the diamond graph, `[metal, stepB, yield]` is a
simple path of 2 ≤ 4 edges between the unique (source, outcome) candidate
pair, yet `path_discovery` with `max_hops = 4` returns only the route through
stepA — the bounded search does not discover every simple path, because the
visited set is shared across the whole per-pair search. -/
theorem C2_counterexample :
    path_discovery diamondGraph 4 5 = [["metal", "stepA", "yield"]] ∧
      sourcesOf diamondGraph = ["metal"] ∧
      targetsOf diamondGraph = ["yield"] ∧
      isSimplePathIn (_build_adjacency diamondGraph) ["metal", "stepB", "yield"] = true ∧
      (["metal", "stepB", "yield"] : List String).length - 1 ≤ 4 ∧
      ["metal", "stepB", "yield"] ∉ path_discovery diamondGraph 4 5 := by
  decide

/-- C2 amended: the per-pair breadth-first search uses one visited set shared
across the whole search, so every (source, outcome) pair contributes at most
one path to the pool, and every returned path has at most `max_hops` nodes,
hence at most `max_hops - 1` edges; the discovered paths of all pairs are
pooled. -/
theorem C2_bfs_per_pair :
    (∀ (adj : List (String × List String)) (s t : String) (maxHops : Nat),
        (bfsPairPaths adj s t maxHops).length ≤ 1) ∧
      ∀ (g : KnowledgeGraphResponse) (maxHops topK : Nat) (p : List String),
        p ∈ path_discovery g maxHops topK → p.length ≤ maxHops := by
  constructor
  · intro adj s t maxHops
    exact bfsPairPaths_le_one adj s t maxHops
  · intro g maxHops topK p hp
    obtain ⟨s, hs, t, ht, hst, hbfs⟩ := mem_path_discovery hp
    refine bfsLoop_len (_build_adjacency g) t maxHops _ _ _ _ ?_ p hbfs
    intro q hq
    exact absurd hq (List.not_mem_nil q)

/-- C2 witness: the amended bound evaluated on the diamond graph. -/
theorem C2_bfs_per_pair_witness :
    ["metal", "stepA", "yield"] ∈ path_discovery diamondGraph 4 5 ∧
      (["metal", "stepA", "yield"] : List String).length ≤ 4 :=
  ⟨by decide, C2_bfs_per_pair.2 diamondGraph 4 5 ["metal", "stepA", "yield"] (by decide)⟩

/-- C10: every id appearing in a path returned by `path_discovery` is the id
of a declared node — dangling relationship endpoints can enter the adjacency
view but never a returned path. -/
theorem C10_paths_use_declared_nodes (g : KnowledgeGraphResponse) (maxHops topK : Nat)
    (p : List String) (x : String)
    (hp : p ∈ path_discovery g maxHops topK) (hx : x ∈ p) :
    ∃ n ∈ g.nodes, n.id = x := by
  obtain ⟨s, hs, t, ht, hst, hbfs⟩ := mem_path_discovery hp
  have hPathOk : PathOk (_build_adjacency g) t p := by
    refine bfsLoop_decl (_build_adjacency g) t maxHops _ _ _ _ ?_ ?_ p hbfs
    · intro e he
      rw [List.mem_singleton.mp he]
      exact ⟨[], rfl, fun y hy => absurd hy (List.not_mem_nil y)⟩
    · intro q hq
      exact absurd hq (List.not_mem_nil q)
  rcases hPathOk x hx with hk | hteq
  · exact (isKey_adjacency g x).mp hk
  · subst hteq
    exact mem_nodeIds (List.mem_filter.mp ht).1

/-- C10 witness: a dangling-endpoint graph — `ghost` appears only as a
relationship target, enters the adjacency view, and indeed never appears in
the returned path; every element of the returned path is a declared node. -/
theorem C10_witness :
    ∃ n ∈ diamondGraph.nodes, n.id = "stepA" :=
  C10_paths_use_declared_nodes diamondGraph 4 5 ["metal", "stepA", "yield"] "stepA"
    (by decide) (by decide)

/-! ## The triple-RAG orchestrator (hybrid_agent.py, chat_agent.py) -/

/-- Python `str.strip()` whitespace for the ASCII whitespace characters. -/
def pyIsSpace (c : Char) : Bool :=
  c = ' ' || c = '\t' || c = '\n' || c = '\r' || c = Char.ofNat 11 || c = Char.ofNat 12

/-- Python `s.strip()` on a character list. -/
def pyStrip (l : List Char) : List Char :=
  ((l.dropWhile pyIsSpace).reverse.dropWhile pyIsSpace).reverse

/-- One hit of `vector_db.search`: its text snippet and the
`metadata['filename']` when present. -/
structure VectorDoc where
  text : String
  filename : Option String := none
deriving DecidableEq, Repr

/-- hybrid_agent.py lines 26-41, `task_vector`: with no hits it contributes a
fixed context and no citations, otherwise one `Doc-{i+1}` citation per hit in
hit order; the loop is modelled as a map over the enumerated hits. -/
def task_vector (raw_docs : List VectorDoc) : String × List Citation :=
  if raw_docs.isEmpty then ("No relevant internal documents found.", [])
  else
    let parts := raw_docs.enum.map (fun p =>
      let ref_id := "Doc-" ++ toString (p.1 + 1)
      let fname := p.2.filename.getD "Unknown"
      ("[" ++ ref_id ++ "] (File: " ++ fname ++ "): " ++ p.2.text ++ "\n\n",
       Citation.mk ref_id "text" p.2.text (some fname)))
    (String.join (parts.map Prod.fst), parts.map Prod.snd)

/-- The value bound to `results` by `text_to_cypher_and_run`: `None`, the list
of returned rows (each row abstracted to its serialized form), or the
`{"error": str(e)}` dict produced when execution throws. -/
inductive ResultsVal where
  | pyNone : ResultsVal
  | rows : List String → ResultsVal
  | errDict : String → ResultsVal
deriving DecidableEq, Repr

/-- Python truthiness of the `results` value: `None` and `[]` are falsy; a
non-empty row list and the (non-empty) error dict are truthy. -/
def ResultsVal.truthy : ResultsVal → Bool
  | .pyNone => false
  | .rows l => !l.isEmpty
  | .errDict _ => true

/-- The dict returned by `text_to_cypher_and_run`. -/
structure TCRResponse where
  cypher : String
  results : ResultsVal
  note : String
deriving DecidableEq, Repr

/-- chat_agent.py lines 160-174, the `run_query_fn` branch of
`text_to_cypher_and_run`: run the already-generated cypher through the
caller-provided runner (whose outcome is `runResult`); an exception from the
runner is caught and swallowed into `results = {"error": str(e)}` — the call
still returns normally. The cypher generation itself (LLM with rule-based
fallback) happens before this branch and is passed in as `cypher`/`note`. -/
def text_to_cypher_and_run_exec (cypher note : String)
    (runResult : Except String (List String)) : TCRResponse :=
  match runResult with
  | .ok rows => { cypher := cypher, results := .rows rows, note := note }
  | .error e =>
    { cypher := cypher, results := .errDict e, note := note ++ " | run_query_fn_failed" }

/-- Rendering of `json.dumps(data, indent=2)` for the context string. -/
def jsonOfResults : ResultsVal → String
  | .pyNone => "null"
  | .rows l => "[" ++ String.intercalate ", " l ++ "]"
  | .errDict e => "\x7b\"error\": \"" ++ e ++ "\"\x7d"

/-- hybrid_agent.py lines 44-60, `task_graph`: the awaited
`text_to_cypher_and_run` call is guarded by try/except (`tcr` is `.error e`
when the call itself raises, contributing `Graph Error: ...` with no
citation); `data = response.get("results", [])` and `if not data` is Python
truthiness, so a truthy `results` yields the `Graph-1` citation. -/
def task_graph (tcr : Except String TCRResponse) : String × List Citation :=
  match tcr with
  | .error e => ("Graph Error: " ++ e, [])
  | .ok resp =>
    if !resp.results.truthy then ("No graph data found.", [])
    else
      ("[Graph-1] Cypher: " ++ resp.cypher ++ "\nResults: " ++ jsonOfResults resp.results,
       [Citation.mk "Graph-1" "graph" ("Cypher: " ++ resp.cypher) none])

/-- chat_agent.py lines 242-262, `search_web_only`: the underlying search
call's outcome is `webRes`; an exception is caught and becomes the empty
context, as does an all-whitespace result. -/
def search_web_only (webRes : Except String String) : String :=
  match webRes with
  | .error _ => ""
  | .ok s => if (pyStrip s.data).isEmpty then "" else s

/-- hybrid_agent.py lines 63-71, `task_web`: an empty web text contributes a
fixed context and no citation, otherwise the `Web-1` citation. -/
def task_web (webRes : Except String String) : String × List Citation :=
  let web_text := search_web_only webRes
  if web_text = "" then ("No web results found.", [])
  else ("[Web-1] Live Search Results: " ++ web_text,
    [Citation.mk "Web-1" "web" web_text (some "DuckDuckGo")])

/-- The value returned by `get_combined_response`. -/
structure CombinedResponse where
  answer : String
  citations : List Citation
deriving DecidableEq, Repr

/-- hybrid_agent.py lines 15-126, `get_combined_response`: the three tasks
run under `asyncio.gather` and append to the shared `citations_list`.
`task_vector` contains no await, so it runs to completion as soon as the
gather schedules it (first, in declaration order) and its citations always
come first; `task_graph` and `task_web` each append their citation only after
their awaited call resolves, i.e. in task completion order, captured here by
the `graphFirst` flag. The final LLM synthesis of the answer from the three
contexts is abstracted as `synth`. -/
def get_combined_response (synth : String → String → String → String)
    (raw_docs : List VectorDoc) (tcr : Except String TCRResponse)
    (webRes : Except String String) (graphFirst : Bool) : CombinedResponse :=
  let v := task_vector raw_docs
  let g := task_graph tcr
  let w := task_web webRes
  { answer := synth v.1 g.1 w.1,
    citations := v.2 ++ (if graphFirst then g.2 ++ w.2 else w.2 ++ g.2) }

/-- A query with two vector hits. -/
def exampleDocs : List VectorDoc :=
  [⟨"alpha snippet", some "a.pdf"⟩, ⟨"beta snippet", some "b.pdf"⟩]

/-- A graph task whose query execution returned one row. -/
def exampleGraphCall : Except String TCRResponse :=
  .ok (text_to_cypher_and_run_exec "MATCH (n) RETURN n LIMIT 200"
    "generated_via_llm" (.ok ["row1"]))

/-- A web search that returned a non-empty result. -/
def exampleWebOk : Except String String := .ok "Entegris in the news"

lemma task_graph_ids : ∀ (tcr : Except String TCRResponse),
    ∀ c ∈ (task_graph tcr).2, c.id = "Graph-1"
  | .error e, c, hc => absurd hc (List.not_mem_nil c)
  | .ok resp, c, hc => by
    simp only [task_graph] at hc
    split at hc
    · exact absurd hc (List.not_mem_nil c)
    · rw [List.mem_singleton.mp hc]

lemma task_web_ids (webRes : Except String String) :
    ∀ c ∈ (task_web webRes).2, c.id = "Web-1" := by
  intro c hc
  simp only [task_web] at hc
  split at hc
  · exact absurd hc (List.not_mem_nil c)
  · rw [List.mem_singleton.mp hc]

lemma task_vector_ids (docs : List VectorDoc) :
    ∀ c ∈ (task_vector docs).2, ∃ i : Nat, c.id = "Doc-" ++ toString (i + 1) := by
  intro c hc
  simp only [task_vector] at hc
  split at hc
  · exact absurd hc (List.not_mem_nil c)
  · obtain ⟨pr, hpr, hc2⟩ := List.mem_map.mp hc
    obtain ⟨p, hp, hpr2⟩ := List.mem_map.mp hpr
    refine ⟨p.1, ?_⟩
    rw [← hc2, ← hpr2]

/-! ## Claim theorems about the orchestrator -/

/-- C1 counterexample: with 2 vector hits, 1 graph hit and 1 web hit, if the
web task completes before the graph task the citations list is
`[Doc-1, Doc-2, Web-1, Graph-1]`, not the claimed schedule-independent
`[Doc-1, Doc-2, Graph-1, Web-1]` — the appends of the graph and web tasks
happen in completion order. -/
theorem C1_counterexample :
    ((get_combined_response (fun _ _ _ => "") exampleDocs exampleGraphCall exampleWebOk
        false).citations.map Citation.id = ["Doc-1", "Doc-2", "Web-1", "Graph-1"]) ∧
      ¬ ((get_combined_response (fun _ _ _ => "") exampleDocs exampleGraphCall exampleWebOk
        false).citations.map Citation.id = ["Doc-1", "Doc-2", "Graph-1", "Web-1"]) := by
  decide

/-- C1 amended: the vector citations always form the prefix of the citations
list, in hit order, because `task_vector` is synchronous and scheduled first;
the graph and web citations follow in task completion order. In particular the
2-vector/1-graph/1-web query yields `[Doc-1, Doc-2, Graph-1, Web-1]` when the
graph task completes first and `[Doc-1, Doc-2, Web-1, Graph-1]` when the web
task completes first. -/
theorem C1_citation_order :
    (∀ (synth : String → String → String → String) (docs : List VectorDoc)
        (tcr : Except String TCRResponse) (webRes : Except String String) (b : Bool),
        ∃ tail, (get_combined_response synth docs tcr webRes b).citations =
            (task_vector docs).2 ++ tail ∧
          ∀ c ∈ tail, c.id = "Graph-1" ∨ c.id = "Web-1") ∧
      ∀ b : Bool,
        (get_combined_response (fun _ _ _ => "") exampleDocs exampleGraphCall exampleWebOk
            b).citations.map Citation.id =
          if b then ["Doc-1", "Doc-2", "Graph-1", "Web-1"]
          else ["Doc-1", "Doc-2", "Web-1", "Graph-1"] := by
  constructor
  · intro synth docs tcr webRes b
    refine ⟨if b then (task_graph tcr).2 ++ (task_web webRes).2
      else (task_web webRes).2 ++ (task_graph tcr).2, rfl, ?_⟩
    intro c hc
    have hc2 : c ∈ (task_graph tcr).2 ∨ c ∈ (task_web webRes).2 := by
      cases b
      · rw [if_neg Bool.false_ne_true] at hc
        rcases List.mem_append.mp hc with h | h
        · exact .inr h
        · exact .inl h
      · rw [if_pos rfl] at hc
        rcases List.mem_append.mp hc with h | h
        · exact .inl h
        · exact .inr h
    rcases hc2 with h | h
    · exact .inl (task_graph_ids tcr c h)
    · exact .inr (task_web_ids webRes c h)
  · decide

/-- C1 witness: the amended ordering statement at the 2-1-1 example with the
web task completing first. -/
theorem C1_citation_order_witness :
    ∃ tail, (get_combined_response (fun _ _ _ => "") exampleDocs exampleGraphCall
        exampleWebOk false).citations = (task_vector exampleDocs).2 ++ tail ∧
      ∀ c ∈ tail, c.id = "Graph-1" ∨ c.id = "Web-1" :=
  C1_citation_order.1 (fun _ _ _ => "") exampleDocs exampleGraphCall exampleWebOk false

/-- C5 counterexample: when the provided `run_query_fn` throws,
`text_to_cypher_and_run` swallows the exception into the truthy
`{"error": ...}` results dict, so `task_graph` still assigns a `Graph-1`
citation although query execution returned no rows — refuting the claimed
"citation iff at least one row" and the claimed no-citation error path. -/
theorem C5_counterexample :
    ((task_graph (.ok (text_to_cypher_and_run_exec "MATCH (n) RETURN n LIMIT 200"
        "generated_via_llm" (.error "boom")))).2.map Citation.id = ["Graph-1"]) ∧
      (text_to_cypher_and_run_exec "MATCH (n) RETURN n LIMIT 200" "generated_via_llm"
        (.error "boom")).results = .errDict "boom" := by
  decide

/-- C5 amended: the graph task assigns `Graph-1` iff the results value of the
translate-and-run call is truthy — at least one returned row, or the error
dict produced when query execution throws (the runner's exception is
swallowed, it does not suppress the citation); only when the
translate-and-run call itself raises does the task contribute
`Graph Error: ...` as its context with no citation. -/
theorem C5_graph_citation :
    (∀ (cypher note : String) (runResult : Except String (List String)),
        ((task_graph (.ok (text_to_cypher_and_run_exec cypher note runResult))).2 ≠ [] ↔
          (∃ rows, runResult = .ok rows ∧ rows ≠ []) ∨ ∃ e, runResult = .error e)) ∧
      ∀ e, task_graph (.error e) = ("Graph Error: " ++ e, []) := by
  constructor
  · intro cypher note runResult
    match runResult with
    | .ok [] =>
      simp only [text_to_cypher_and_run_exec, task_graph, ResultsVal.truthy]
      constructor
      · intro h
        simp at h
      · rintro (⟨rows, hr, hne⟩ | ⟨e, he⟩)
        · rw [show rows = [] from (Except.ok.injEq _ _).mp hr.symm] at hne
          exact absurd rfl hne
        · exact absurd he (by simp)
    | .ok (a :: l) =>
      simp only [text_to_cypher_and_run_exec, task_graph, ResultsVal.truthy]
      constructor
      · intro _
        exact .inl ⟨a :: l, rfl, by simp⟩
      · intro _
        simp
    | .error e =>
      simp only [text_to_cypher_and_run_exec, task_graph, ResultsVal.truthy]
      constructor
      · intro _
        exact .inr ⟨e, rfl⟩
      · intro _
        simp
  · intro e
    rfl

/-- C5 witness: a successful one-row execution yields the citation. -/
theorem C5_graph_citation_witness :
    (task_graph (.ok (text_to_cypher_and_run_exec "MATCH (n) RETURN n LIMIT 200"
        "generated_via_llm" (.ok ["row1"])))).2 ≠ [] :=
  (C5_graph_citation.1 "MATCH (n) RETURN n LIMIT 200" "generated_via_llm"
      (.ok ["row1"])).mpr (.inl ⟨["row1"], rfl, by decide⟩)

/-- C7: if the underlying web search call throws, `search_web_only` catches it
and returns the empty context, so the orchestrator still returns an answer and
its citations are exactly the vector and graph contributions (under either
completion order), with no citation id starting with `Web-`. -/
theorem C7_web_failure_isolated (synth : String → String → String → String)
    (docs : List VectorDoc) (tcr : Except String TCRResponse) (e : String) (b : Bool) :
    (get_combined_response synth docs tcr (.error e) b).citations =
        (task_vector docs).2 ++ (task_graph tcr).2 ∧
      ∀ c ∈ (get_combined_response synth docs tcr (.error e) b).citations,
        ("Web-".data).isPrefixOf c.id.data = false := by
  have hweb : (task_web (.error e)).2 = [] := rfl
  constructor
  · simp only [get_combined_response, hweb]
    cases b <;> simp
  · intro c hc
    simp only [get_combined_response, hweb] at hc
    have hc2 : c ∈ (task_vector docs).2 ∨ c ∈ (task_graph tcr).2 := by
      rcases List.mem_append.mp hc with h | h
      · exact .inl h
      · right
        cases b
        · rw [if_neg Bool.false_ne_true] at h
          simpa using h
        · rw [if_pos rfl] at h
          simpa using h
    rcases hc2 with h | h
    · obtain ⟨i, hid⟩ := task_vector_ids docs c h
      rw [hid]
      simp [String.data_append, List.isPrefixOf]
    · rw [task_graph_ids tcr c h]
      decide

/-- C7 witness: the isolation property at the 2-1-1 example with a failing
web search. -/
theorem C7_web_failure_isolated_witness :
    (get_combined_response (fun _ _ _ => "") exampleDocs exampleGraphCall
        (.error "netfail") false).citations =
      (task_vector exampleDocs).2 ++ (task_graph exampleGraphCall).2 :=
  (C7_web_failure_isolated (fun _ _ _ => "") exampleDocs exampleGraphCall "netfail" false).1

/-! ## A small backtracking regex engine

`text_to_cypher_simple` (utils.py) drives six `re.search` patterns whose only
quantifiers are greedy `+`/`*`/`?` over single-character classes, plus literal
alternations and capture groups. The engine below implements exactly this
fragment with Python semantics: leftmost match position, alternatives tried
left to right, greedy quantifiers trying the longest take first, and full
backtracking through a continuation. -/

/-- The regex fragment used by utils.py. -/
inductive Rex where
  | lit : List Char → Rex
  | one : (Char → Bool) → Rex
  | alt : Rex → Rex → Rex
  | seq : Rex → Rex → Rex
  | opt : Rex → Rex
  | many0 : (Char → Bool) → Rex
  | many1 : (Char → Bool) → Rex
  | grp : Nat → Rex → Rex

/-- Captured groups: group index paired with the captured characters. -/
abbrev Caps := List (Nat × List Char)

/-- All ways to split off a (possibly empty) run of `p`-characters, longest
take first — the greedy order of Python quantifiers. -/
def greedySplits (p : Char → Bool) : List Char → List (List Char × List Char)
  | [] => [([], [])]
  | c :: rest =>
    if p c then
      ((greedySplits p rest).map (fun pr => (c :: pr.1, pr.2))) ++ [([], c :: rest)]
    else [([], c :: rest)]

/-- Feed each candidate remainder to the continuation until one succeeds. -/
def tryAll (splits : List (List Char × List Char)) (caps : Caps)
    (k : List Char → Caps → Option Caps) : Option Caps :=
  match splits with
  | [] => none
  | pr :: rest =>
    match k pr.2 caps with
    | some r => some r
    | none => tryAll rest caps k

/-- Backtracking matcher in continuation-passing style: `k` receives the
remaining input and the captures accumulated so far. -/
def matchRex : Rex → List Char → Caps → (List Char → Caps → Option Caps) → Option Caps
  | .lit cs, s, caps, k => if cs.isPrefixOf s then k (s.drop cs.length) caps else none
  | .one p, s, caps, k =>
    match s with
    | [] => none
    | c :: rest => if p c then k rest caps else none
  | .alt a b, s, caps, k =>
    match matchRex a s caps k with
    | some r => some r
    | none => matchRex b s caps k
  | .seq a b, s, caps, k => matchRex a s caps (fun s1 c1 => matchRex b s1 c1 k)
  | .opt a, s, caps, k =>
    match matchRex a s caps k with
    | some r => some r
    | none => k s caps
  | .many0 p, s, caps, k => tryAll (greedySplits p s) caps k
  | .many1 p, s, caps, k => tryAll ((greedySplits p s).filter (fun pr => !pr.1.isEmpty)) caps k
  | .grp i a, s, caps, k =>
    matchRex a s caps (fun s1 c1 => k s1 ((i, s.take (s.length - s1.length)) :: c1))

/-- `re.search`: try a match at each start position, left to right. -/
def reSearch (r : Rex) : List Char → Option Caps
  | [] => matchRex r [] [] (fun _ caps => some caps)
  | c :: rest =>
    match matchRex r (c :: rest) [] (fun _ caps => some caps) with
    | some caps => some caps
    | none => reSearch r rest

/-- `m.group(i)`: the most recent capture of group `i`. -/
def getGrp (caps : Caps) (i : Nat) : List Char :=
  match caps with
  | [] => []
  | (j, v) :: rest => if j = i then v else getGrp rest i

/-- Right-nested sequence of patterns. -/
def seqAll : List Rex → Rex
  | [] => .lit []
  | [r] => r
  | r :: rest => .seq r (seqAll rest)

/-! ## The rule-based Cypher generator (utils.py lines 60-138) -/

/-- The single-quote character (39) kept out of string literals. -/
def sqStr : String := ⟨[Char.ofNat 39]⟩

/-- `[A-Za-z0-9_]`. -/
def wordChar (c : Char) : Bool := c.isAlpha || c.isDigit || c = '_'

/-- `[^'"]`. -/
def notQuoteChar (c : Char) : Bool := !(c = Char.ofNat 39 || c = Char.ofNat 34)

/-- `['"]`. -/
def quoteChar (c : Char) : Bool := c = Char.ofNat 39 || c = Char.ofNat 34

/-- `[A-Za-z0-9_'-]`. -/
def val6Char (c : Char) : Bool := wordChar c || c = Char.ofNat 39 || c = '-'

/-- A string literal pattern. -/
def litS (s : String) : Rex := .lit s.data

/-- `\s+`. -/
def sp1 : Rex := .many1 pyIsSpace

/-- `\s*`. -/
def sp0 : Rex := .many0 pyIsSpace

/-- `['"]?`. -/
def optQuote : Rex := .opt (.one quoteChar)

/-- utils.py line 76: `(find|show|get|list)\s+(?:all\s+)?(?:nodes\s+)?`
`(?:of\s+type\s+|label\s+)?([A-Za-z0-9_]+)`. -/
def rule1 : Rex := seqAll [
  .grp 1 (.alt (litS "find") (.alt (litS "show") (.alt (litS "get") (litS "list")))),
  sp1,
  .opt (.seq (litS "all") sp1),
  .opt (.seq (litS "nodes") sp1),
  .opt (.alt (seqAll [litS "of", sp1, litS "type", sp1]) (.seq (litS "label") sp1)),
  .grp 2 (.many1 wordChar)]

/-- utils.py line 82: `(?:find|show|get)\s+(?:nodes\s+)?(?:where\s+)?`
`([A-Za-z0-9_]+)\s*(?:=|is|:)\s*['"]?([^'"]+)['"]?`. -/
def rule2 : Rex := seqAll [
  .alt (litS "find") (.alt (litS "show") (litS "get")),
  sp1,
  .opt (.seq (litS "nodes") sp1),
  .opt (.seq (litS "where") sp1),
  .grp 1 (.many1 wordChar),
  sp0,
  .alt (litS "=") (.alt (litS "is") (litS ":")),
  sp0,
  optQuote,
  .grp 2 (.many1 notQuoteChar),
  optQuote]

/-- utils.py line 93: `(?:neighbors|connected to|connections of|show related to)`
`\s+(?:node\s+)?['"]?([^'"]+)['"]?`. -/
def rule3 : Rex := seqAll [
  .alt (litS "neighbors")
    (.alt (litS "connected to") (.alt (litS "connections of") (litS "show related to"))),
  sp1,
  .opt (.seq (litS "node") sp1),
  optQuote,
  .grp 1 (.many1 notQuoteChar),
  optQuote]

/-- utils.py line 103: `(?:path|relationship)s?\s+between\s+['"]?([^'"]+)['"]?`
`\s+(?:and|&)\s+['"]?([^'"]+)['"]?`. -/
def rule4 : Rex := seqAll [
  .alt (litS "path") (litS "relationship"),
  .opt (.one (fun c => c = 's')),
  sp1, litS "between", sp1,
  optQuote,
  .grp 1 (.many1 notQuoteChar),
  optQuote,
  sp1,
  .alt (litS "and") (litS "&"),
  sp1,
  optQuote,
  .grp 2 (.many1 notQuoteChar),
  optQuote]

/-- utils.py line 114: `(?:count|how many)\s+(?:nodes\s+)?([A-Za-z0-9_]+)`. -/
def rule5 : Rex := seqAll [
  .alt (litS "count") (litS "how many"),
  sp1,
  .opt (.seq (litS "nodes") sp1),
  .grp 1 (.many1 wordChar)]

/-- utils.py line 122: `([A-Za-z0-9_]+)\s+(?:is|=|:)\s*([A-Za-z0-9_'-]+)`. -/
def rule6 : Rex := seqAll [
  .grp 1 (.many1 wordChar),
  sp1,
  .alt (litS "is") (.alt (litS "=") (litS ":")),
  sp0,
  .grp 2 (.many1 val6Char)]

/-- utils.py lines 60-62, `_escape_cypher_string`: replace `'` by `\'`. -/
def _escape_cypher_string (l : List Char) : List Char :=
  (l.map (fun c => if c = Char.ofNat 39 then [Char.ofNat 92, c] else [c])).flatten

/-- String of a character list. -/
def strOf (l : List Char) : String := ⟨l⟩

/-- ASCII lowering of a character list (Python `str.lower()` on ASCII). -/
def lowerL (l : List Char) : List Char := l.map Char.toLower

/-- Python `str.isdigit()` on ASCII: non-empty and all digits. -/
def isDigitL (l : List Char) : Bool := !l.isEmpty && l.all Char.isDigit

/-- utils.py line 71: the placeholder for empty input. -/
def emptyMsg : String := "-- empty input: no cypher generated"

/-- utils.py line 79: the label-scan query of rule 1. -/
def labelScanQuery (label : String) : String :=
  "MATCH (n:`" ++ label ++ "`) RETURN n LIMIT 200"

/-- utils.py line 117: the count-by-label query of rule 5. -/
def countQuery (label : String) : String :=
  "MATCH (n:`" ++ label ++ "`) RETURN count(n) as count"

/-- utils.py line 88: rule 2 with a numeric value. -/
def propEqQueryNum (prop val : String) : String :=
  "MATCH (n) WHERE coalesce(n." ++ prop ++ ", " ++ sqStr ++ sqStr ++ ") = " ++ val ++
    " OR toString(n." ++ prop ++ ") = " ++ sqStr ++ val ++ sqStr ++ " RETURN n LIMIT 200"

/-- utils.py lines 90 and 128: rule 2 / rule 6 with a string value. -/
def propEqQueryStr (prop val : String) : String :=
  "MATCH (n) WHERE toLower(coalesce(n." ++ prop ++ ", " ++ sqStr ++ sqStr ++ ")) = " ++
    sqStr ++ val ++ sqStr ++ " RETURN n LIMIT 200"

/-- utils.py lines 97-100: the neighbours query of rule 3. -/
def neighborsQuery (name : String) : String :=
  "MATCH (n) WHERE toLower(coalesce(n.name," ++ sqStr ++ sqStr ++ ")) = " ++
    sqStr ++ name ++ sqStr ++ " OR toLower(coalesce(n.id," ++ sqStr ++ sqStr ++ ")) = " ++
    sqStr ++ name ++ sqStr ++ " MATCH (n)-[r]-(m) RETURN n, r, m LIMIT 300"

/-- utils.py lines 107-111: the shortest-path query of rule 4. -/
def pathBetweenQuery (a b : String) : String :=
  "MATCH (a), (b) WHERE (toLower(coalesce(a.name," ++ sqStr ++ sqStr ++ ")) = " ++
    sqStr ++ a ++ sqStr ++ " OR toLower(coalesce(a.id," ++ sqStr ++ sqStr ++ ")) = " ++
    sqStr ++ a ++ sqStr ++ ") AND (toLower(coalesce(b.name," ++ sqStr ++ sqStr ++ ")) = " ++
    sqStr ++ b ++ sqStr ++ " OR toLower(coalesce(b.id," ++ sqStr ++ sqStr ++ ")) = " ++
    sqStr ++ b ++ sqStr ++ ") MATCH p = shortestPath((a)-[*..6]-(b)) RETURN p LIMIT 1"

/-- utils.py line 127: rule 6 with a numeric value. -/
def genericNumQuery (prop val : String) : String :=
  "MATCH (n) WHERE n." ++ prop ++ " = " ++ val ++ " RETURN n LIMIT 200"

/-- utils.py lines 131-137: the safe hint fallback. -/
def safeHint : String :=
  "-- Couldn" ++ sqStr ++ "t map input automatically. Example queries:\n" ++
    "-- 1) find nodes of type Device\n" ++
    "-- 2) show neighbors of " ++ sqStr ++ "Pump-123" ++ sqStr ++ "\n" ++
    "-- 3) path between " ++ sqStr ++ "Alice" ++ sqStr ++ " and " ++ sqStr ++ "Bob" ++
    sqStr ++ "\n" ++ "MATCH (n) RETURN n LIMIT 50"

/-- utils.py lines 64-138, `text_to_cypher_simple`: lowercase the stripped
input and try the six rules in order; every branch returns one of the fixed
read-only query templates. -/
def text_to_cypher_simple (nl : String) : String :=
  if nl.data.isEmpty || (pyStrip nl.data).isEmpty then emptyMsg
  else
    let text := lowerL (pyStrip nl.data)
    match reSearch rule1 text with
    | some caps => labelScanQuery (strOf (getGrp caps 2))
    | none =>
      match reSearch rule2 text with
      | some caps =>
        let prop := strOf (getGrp caps 1)
        let val := _escape_cypher_string (getGrp caps 2)
        if isDigitL val then propEqQueryNum prop (strOf val)
        else propEqQueryStr prop (strOf (lowerL val))
      | none =>
        match reSearch rule3 text with
        | some caps =>
          neighborsQuery (strOf (lowerL (_escape_cypher_string (getGrp caps 1))))
        | none =>
          match reSearch rule4 text with
          | some caps =>
            pathBetweenQuery (strOf (lowerL (_escape_cypher_string (getGrp caps 1))))
              (strOf (lowerL (_escape_cypher_string (getGrp caps 2))))
          | none =>
            match reSearch rule5 text with
            | some caps => countQuery (strOf (getGrp caps 1))
            | none =>
              match reSearch rule6 text with
              | some caps =>
                let prop := strOf (getGrp caps 1)
                let val := _escape_cypher_string (getGrp caps 2)
                if isDigitL val then genericNumQuery prop (strOf val)
                else propEqQueryStr prop (strOf (lowerL val))
              | none => safeHint

/-! ## Claim theorems about the rule-based generator -/

lemma ne_empty_of_head (a b : String) (ha : a ≠ "") : a ++ b ≠ "" := by
  intro h
  apply ha
  have hd := congrArg String.data h
  rw [String.data_append] at hd
  exact String.ext (List.append_eq_nil.mp hd).1

lemma labelScanQuery_ne (label : String) : labelScanQuery label ≠ "" := by
  unfold labelScanQuery
  repeat apply ne_empty_of_head
  decide

lemma countQuery_ne (label : String) : countQuery label ≠ "" := by
  unfold countQuery
  repeat apply ne_empty_of_head
  decide

lemma propEqQueryNum_ne (prop val : String) : propEqQueryNum prop val ≠ "" := by
  unfold propEqQueryNum
  repeat apply ne_empty_of_head
  decide

lemma propEqQueryStr_ne (prop val : String) : propEqQueryStr prop val ≠ "" := by
  unfold propEqQueryStr
  repeat apply ne_empty_of_head
  decide

lemma neighborsQuery_ne (name : String) : neighborsQuery name ≠ "" := by
  unfold neighborsQuery
  repeat apply ne_empty_of_head
  decide

lemma pathBetweenQuery_ne (a b : String) : pathBetweenQuery a b ≠ "" := by
  unfold pathBetweenQuery
  repeat apply ne_empty_of_head
  decide

lemma genericNumQuery_ne (prop val : String) : genericNumQuery prop val ≠ "" := by
  unfold genericNumQuery
  repeat apply ne_empty_of_head
  decide

/-- Every output of the rule-based generator is an instance of one of the
fixed templates: the empty-input placeholder, the commented safe hint, or a
read-only `MATCH` query whose interpolated parts sit in label, property or
quoted-literal position — none of the template skeletons contains a mutating
clause (no CREATE / DELETE / SET / MERGE / REMOVE / DROP). -/
def cypherShape (r : String) : Prop :=
  r = emptyMsg ∨
  r = safeHint ∨
  (∃ label, r = labelScanQuery label) ∨
  (∃ label, r = countQuery label) ∨
  (∃ prop val, r = propEqQueryNum prop val) ∨
  (∃ prop val, r = propEqQueryStr prop val) ∨
  (∃ name, r = neighborsQuery name) ∨
  (∃ a b, r = pathBetweenQuery a b) ∨
  (∃ prop val, r = genericNumQuery prop val)

/-- C9: the rule-based Cypher generator is total (never raises), never
returns the empty string, and always returns an instance of one of the fixed
read-only query templates — i.e. a query containing no mutating verb; in
particular `"find devices"` yields the label scan for label `devices`,
`"count materials"` yields the count-by-label query, and the empty string
yields the non-empty placeholder. -/
theorem C9_rule_based_cypher :
    (∀ nl : String,
        text_to_cypher_simple nl ≠ "" ∧ cypherShape (text_to_cypher_simple nl)) ∧
      text_to_cypher_simple "find devices" = labelScanQuery "devices" ∧
      text_to_cypher_simple "count materials" = countQuery "materials" ∧
      text_to_cypher_simple "" = emptyMsg := by
  refine ⟨?_, by decide, by decide, by decide⟩
  intro nl
  simp only [text_to_cypher_simple]
  split
  · exact ⟨by decide, .inl rfl⟩
  · split
    · exact ⟨labelScanQuery_ne _, .inr (.inr (.inl ⟨_, rfl⟩))⟩
    · split
      · split
        · exact ⟨propEqQueryNum_ne _ _, .inr (.inr (.inr (.inr (.inl ⟨_, _, rfl⟩))))⟩
        · exact ⟨propEqQueryStr_ne _ _, .inr (.inr (.inr (.inr (.inr (.inl ⟨_, _, rfl⟩)))))⟩
      · split
        · exact ⟨neighborsQuery_ne _,
            .inr (.inr (.inr (.inr (.inr (.inr (.inl ⟨_, rfl⟩))))))⟩
        · split
          · exact ⟨pathBetweenQuery_ne _ _,
              .inr (.inr (.inr (.inr (.inr (.inr (.inr (.inl ⟨_, _, rfl⟩)))))))⟩
          · split
            · exact ⟨countQuery_ne _, .inr (.inr (.inr (.inl ⟨_, rfl⟩)))⟩
            · split
              · split
                · exact ⟨genericNumQuery_ne _ _,
                    .inr (.inr (.inr (.inr (.inr (.inr (.inr (.inr ⟨_, _, rfl⟩)))))))⟩
                · exact ⟨propEqQueryStr_ne _ _,
                    .inr (.inr (.inr (.inr (.inr (.inl ⟨_, _, rfl⟩)))))⟩
              · exact ⟨by decide, .inr (.inl rfl)⟩

end ResearchAgents
